import Mathlib

/-!
Verification of the in-memory indexing / relevance-ranking engine of
`legal_evolution_memorag_lite.py` (class `LegalEvolutionMemoRAGLite`).

The Python source is shallowly embedded below: pandas scalar cell values that
may be `NaN` are modelled by `PVal`; Python `dict` / `defaultdict(list)`
instances (which preserve insertion order) are modelled by association lists
with update-in-place / append-at-key operations; `float` arithmetic is
modelled exactly over `ℚ`; a raised exception is modelled by
`Except String`.  `list(set(...))` enumerates a Python set in an unspecified,
hash-dependent order; where the surrounding code does not depend on that
order it is modelled as first-occurrence order (`dedupFirst`), and where the
order is load-bearing (the `max(set(areas), ...)` tie-break) the enumeration
order is kept as an explicit parameter.
-/

set_option linter.unusedVariables false

namespace LegalEvo

/-- A pandas cell value: either a string or the missing-value marker `NaN`. -/
inductive PVal where
  | s (v : String)
  | nan
deriving DecidableEq, Repr

/-- Python `str()` applied to a cell value: `str(nan) = "nan"`. -/
def pvalStr : PVal → String
  | .s v => v
  | .nan => "nan"

/-- Python truthiness of a cell value: `bool(nan) = True`, `bool("") = False`. -/
def pvalTruthy : PVal → Bool
  | .s v => !(v == "")
  | .nan => true

/-- Python `len()` of a cell value: `len` of a float (NaN) raises `TypeError`. -/
def pvalLen : PVal → Except String Nat
  | .s v => pure v.length
  | .nan => Except.error "TypeError: object of type float has no len()"

/-- A word character for the regex `\w` (ASCII model of the Python class). -/
def isWordChar (c : Char) : Bool := c.isAlphanum || c == '_'

/-- Python `str.lower()` (character-by-character; ASCII model). -/
def strToLower (s : String) : String := String.mk (s.toList.map Char.toLower)

/-- Decides whether `pat` is a (character-list) leading segment of `l`. -/
def leadSeg : List Char → List Char → Bool
  | [], _ => true
  | _ :: _, [] => false
  | a :: as, b :: bs => a == b && leadSeg as bs

/-- Python substring containment `needle in hay` over character lists. -/
def containsSub (hay needle : List Char) : Bool :=
  match hay with
  | [] => leadSeg needle []
  | _ :: t => leadSeg needle hay || containsSub t needle

/-- Python `s2 in s1` for strings. -/
def strContains (s1 s2 : String) : Bool := containsSub s1.toList s2.toList

/-- First-occurrence deduplication: the model of Python `list(set(xs))`
(whose actual enumeration order is unspecified). -/
def dedupFirstAux (seen : List String) : List String → List String
  | [] => []
  | x :: xs =>
    if seen.contains x then dedupFirstAux seen xs
    else x :: dedupFirstAux (x :: seen) xs

/-- Deduplicate keeping the first occurrence of each string. -/
def dedupFirst (xs : List String) : List String := dedupFirstAux [] xs

/-- Maximal run splitting for `re.findall(r'\w+', text)`: cut `text` into the
maximal runs of word characters. -/
def wordRuns : List Char → List Char → List String
  | cur, [] => if cur.isEmpty then [] else [String.mk cur.reverse]
  | cur, c :: cs =>
    if isWordChar c then wordRuns (c :: cur) cs
    else if cur.isEmpty then wordRuns [] cs
    else String.mk cur.reverse :: wordRuns [] cs

/-- Stop-word set of `_extract_keywords`. -/
def stopwords : List String :=
  ["de", "la", "el", "en", "y", "a", "que", "del", "las", "los", "con", "por", "para"]

/-- Embedding of `_extract_keywords` (the query text handed in is a `str`, so
the `pd.isna` guard is never taken for it): lowercase, split on `\w+`, keep
tokens longer than 3 characters that are not stop words, deduplicate. -/
def _extract_keywords (text : String) : List String :=
  let words := wordRuns [] (strToLower text).toList
  let keywords := words.filter (fun w => decide (3 < w.length) && !(stopwords.contains w))
  dedupFirst keywords

/-- Embedding of `_calculate_relevance_score`: with an empty keyword list the
score is `0.0`; otherwise the number of keywords occurring as a substring of
the lowercased content, divided by the number of keywords. -/
def _calculate_relevance_score (content : String) (keywords : List String) : ℚ :=
  if keywords = [] then 0
  else
    let content_lower := strToLower content
    ((keywords.countP (fun k => strContains content_lower k) : ℚ)) / (keywords.length : ℚ)

/-- A row of `evolution_cases.csv` as handed to `_build_memory_index`.  The
identifier and the two fields whose missing-ness the code observes
(`fecha_inicio` via `str(...)[:4]`, `notas` via `.get`) are kept as possibly
missing values; the remaining columns are plain strings. -/
structure CaseRecord where
  case_id : Option String
  nombre_caso : String
  area_derecho : String
  fecha_inicio : PVal
  fecha_fin : String
  tipo_seleccion : String
  origen : String
  exito : String
  presion_ambiental : String
  actores_principales : String
  normativa_primaria : String
  fallos_relevantes : String
  supervivencia_anos : String
  mutaciones_identificadas : String
  difusion_otras_jurisdicciones : String
  notas : PVal
deriving DecidableEq, Repr

/-- A row of `crisis_periods.csv` as handed to `_build_memory_index`. -/
structure CrisisRecord where
  crisis_id : Option String
  crisis_name : String
  start_date : PVal
  end_date : String
  crisis_type : String
  severity_level : String
  legal_changes_count : String
  emergency_decrees : String
  new_laws : String
  acceleration_factor : String
  economic_indicators : String
  recovery_timeline_months : String
  long_term_institutional_impact : String
deriving DecidableEq, Repr

/-- Embedding of `_build_case_memory`: the multi-line f-string rendering of an
evolution case. -/
def _build_case_memory (case : CaseRecord) : String :=
  "\n        Legal Evolution Case: " ++ case.nombre_caso ++
  "\n        Legal Area: " ++ case.area_derecho ++
  "\n        Period: " ++ pvalStr case.fecha_inicio ++ " to " ++ case.fecha_fin ++
  "\n        Evolution Type: " ++ case.tipo_seleccion ++
  "\n        Origin: " ++ case.origen ++
  "\n        Success Level: " ++ case.exito ++
  "\n        Environmental Pressure: " ++ case.presion_ambiental ++
  "\n        Key Actors: " ++ case.actores_principales ++
  "\n        Primary Legislation: " ++ case.normativa_primaria ++
  "\n        Relevant Rulings: " ++ case.fallos_relevantes ++
  "\n        Survival Years: " ++ case.supervivencia_anos ++
  "\n        Mutations: " ++ case.mutaciones_identificadas ++
  "\n        International Diffusion: " ++ case.difusion_otras_jurisdicciones ++
  "\n        Notes: " ++ pvalStr case.notas ++
  "\n        "

/-- Embedding of `_build_crisis_memory`: the multi-line f-string rendering of a
crisis period. -/
def _build_crisis_memory (crisis : CrisisRecord) : String :=
  "\n        Crisis Period: " ++ crisis.crisis_name ++
  "\n        Duration: " ++ pvalStr crisis.start_date ++ " to " ++ crisis.end_date ++
  "\n        Type: " ++ crisis.crisis_type ++
  "\n        Severity: " ++ crisis.severity_level ++
  "\n        Legal Changes: " ++ crisis.legal_changes_count ++
  "\n        Emergency Decrees: " ++ crisis.emergency_decrees ++
  "\n        New Laws: " ++ crisis.new_laws ++
  "\n        Acceleration Factor: " ++ crisis.acceleration_factor ++
  "\n        Economic Indicators: " ++ crisis.economic_indicators ++
  "\n        Recovery Timeline: " ++ crisis.recovery_timeline_months ++ " months" ++
  "\n        Long-term Impact: " ++ crisis.long_term_institutional_impact ++
  "\n        "

/-- The metadata map attached to a memory entry.  Evolution cases populate
`legal_area` / `start_date` / `success`, crisis periods populate
`crisis_type` / `severity` / `start_date`; a `.get` on an absent key yields
`none`. -/
structure Metadata where
  legal_area : Option String := none
  start_date : Option PVal := none
  success : Option String := none
  crisis_type : Option String := none
  severity : Option String := none
  mtype : String
deriving DecidableEq, Repr

/-- A value of the by-id stores: rendered content plus metadata. -/
structure MemEntry where
  content : String
  metadata : Metadata
deriving DecidableEq, Repr

/-- Lookup in an insertion-ordered Python dict modelled as an association
list. -/
def dictLookup {α β : Type} [DecidableEq α] : List (α × β) → α → Option β
  | [], _ => none
  | (k, v) :: rest, key => if k = key then some v else dictLookup rest key

/-- Python dict assignment `d[k] = v`: update in place if the key exists,
otherwise append (dicts preserve insertion order). -/
def dictSet {α β : Type} [DecidableEq α] : List (α × β) → α → β → List (α × β)
  | [], k, v => [(k, v)]
  | (k0, v0) :: rest, k, v =>
    if k0 = k then (k0, v) :: rest else (k0, v0) :: dictSet rest k v

/-- Python `defaultdict(list)` append `d[k].append(v)`. -/
def dictAppendAt {α β : Type} [DecidableEq α] : List (α × List β) → α → β → List (α × List β)
  | [], k, v => [(k, [v])]
  | (k0, vs) :: rest, k, v =>
    if k0 = k then (k0, vs ++ [v]) :: rest else (k0, vs) :: dictAppendAt rest k v

/-- All the ids stored in the value lists of a secondary index. -/
def valsIds {α β : Type} (d : List (α × List β)) : List β :=
  (d.map Prod.snd).flatten

/-- The four lookup structures of `self.memory_index` (the unused
`transplant_cases` sub-dict stays empty in the source and is omitted). -/
structure MemoryIndex where
  evolution_cases : List (Option String × MemEntry)
  crisis_periods : List (Option String × MemEntry)
  keywords : List (String × List (Option String))
  temporal : List (String × List (Option String))
  legal_areas : List (String × List (Option String))
deriving DecidableEq, Repr

/-- The freshly reset `self.memory_index`. -/
def emptyIndex : MemoryIndex :=
  { evolution_cases := [], crisis_periods := [], keywords := [], temporal := [], legal_areas := [] }

/-- The by-id entry built for an evolution case (content plus curated
metadata). -/
def caseEntry (case : CaseRecord) : MemEntry :=
  { content := _build_case_memory case
    metadata :=
      { legal_area := some case.area_derecho
        start_date := some case.fecha_inicio
        success := some case.exito
        mtype := "evolution_case" } }

/-- One iteration of the evolution-case loop of `_build_memory_index`: insert
the entry under `case['case_id']`, append the id at every extracted keyword,
append it at the 4-character prefix of `str(case['fecha_inicio'])`
(unconditionally — the slice never fails), and append it at the legal-area
key. -/
def indexCase (st : MemoryIndex) (case : CaseRecord) : MemoryIndex :=
  let case_id := case.case_id
  let st1 := { st with evolution_cases := dictSet st.evolution_cases case_id (caseEntry case) }
  let kws := _extract_keywords (case.nombre_caso ++ " " ++ pvalStr case.notas)
  let st2 := { st1 with
    keywords := kws.foldl (fun d (kw : String) => dictAppendAt d (strToLower kw) case_id) st1.keywords }
  let year := (pvalStr case.fecha_inicio).take 4
  let st3 := { st2 with temporal := dictAppendAt st2.temporal year case_id }
  { st3 with legal_areas := dictAppendAt st3.legal_areas case.area_derecho case_id }

/-- One iteration of the crisis-period loop of `_build_memory_index`: crisis
records go only into the `crisis_periods` by-id dict, never into the
secondary indexes. -/
def indexCrisis (st : MemoryIndex) (crisis : CrisisRecord) : MemoryIndex :=
  let entry : MemEntry :=
    { content := _build_crisis_memory crisis
      metadata :=
        { crisis_type := some crisis.crisis_type
          severity := some crisis.severity_level
          start_date := some crisis.start_date
          mtype := "crisis_period" } }
  { st with crisis_periods := dictSet st.crisis_periods crisis.crisis_id entry }

/-- Embedding of `_build_memory_index`: reset the index, then fold the
evolution cases and the crisis periods through their respective loops (the
`if not df.empty` guards coincide with folding over an empty list). -/
def _build_memory_index (cases : List CaseRecord) (crises : List CrisisRecord) : MemoryIndex :=
  crises.foldl indexCrisis (cases.foldl indexCase emptyIndex)

/-- The configuration fields consumed by the query path (from
`_load_config`'s defaults). -/
structure Config where
  retrieval_top_k : Nat := 20
  legal_domains : List String :=
    ["constitucional", "civil", "comercial", "financiero",
     "administrativo", "procesal", "criminal", "laboral",
     "tributario", "cambiario", "bancario", "ambiental"]

/-- The default configuration of `_load_config`. -/
def default_config : Config := {}

/-- One element appended to `scored_cases` by `_search_memory`. -/
structure ScoredMatch where
  id : Option String
  mtype : String
  score : ℚ
  content : String
  metadata : Metadata
deriving DecidableEq, Repr

/-- The partition guard of `_search_memory`:
`if not context_type or context_type == part` — `None` and the empty string
are falsy, so they open every partition. -/
def ctxAllows (context_type : Option String) (part : String) : Bool :=
  match context_type with
  | none => true
  | some s => s == "" || s == part

/-- Score one by-id entry of a partition against the query keywords. -/
def mkScored (mtype : String) (keywords : List String) (p : Option String × MemEntry) :
    ScoredMatch :=
  { id := p.1, mtype := mtype,
    score := _calculate_relevance_score p.2.content keywords,
    content := p.2.content, metadata := p.2.metadata }

/-- The `scored_cases` list right before sorting: both partition loops append
(in partition insertion order, evolution cases first) every entry whose score
is strictly positive. -/
def scoredCandidates (st : MemoryIndex) (keywords : List String) (context_type : Option String) :
    List ScoredMatch :=
  (if ctxAllows context_type "evolution_cases" then
    (st.evolution_cases.map (mkScored "evolution_case" keywords)).filter
      (fun m => decide (0 < m.score))
   else []) ++
  (if ctxAllows context_type "crisis_periods" then
    (st.crisis_periods.map (mkScored "crisis_period" keywords)).filter
      (fun m => decide (0 < m.score))
   else [])

/-- Insert a match into a score-descending list, before the first element
whose score it meets or exceeds: the insertion step of the unique stable
descending order that `list.sort(key=score, reverse=True)` computes. -/
def insertByScore (x : ScoredMatch) : List ScoredMatch → List ScoredMatch
  | [] => [x]
  | y :: ys => if y.score ≤ x.score then x :: y :: ys else y :: insertByScore x ys

/-- Stable sort by score descending (the Timsort call
`scored_cases.sort(key=lambda x: x['score'], reverse=True)` yields exactly
this list: stable sorting determines the output uniquely). -/
def sortByScoreDesc : List ScoredMatch → List ScoredMatch
  | [] => []
  | x :: xs => insertByScore x (sortByScoreDesc xs)

/-- Embedding of `_search_memory`: score-filter both allowed partitions, sort
by score descending (stable), truncate to `config['retrieval_top_k']`. -/
def _search_memory (st : MemoryIndex) (config : Config) (keywords : List String)
    (context_type : Option String) : List ScoredMatch :=
  (sortByScoreDesc (scoredCandidates st keywords context_type)).take config.retrieval_top_k

/-- Embedding of `_calculate_confidence`: `0.0` on an empty match list,
otherwise `min(0.6 + min(n*0.05, 0.3) + avg_score*0.2 + 0.1, 1.0)` (the
`keywords` parameter is accepted and ignored, as in the source). -/
def _calculate_confidence (cases : List ScoredMatch) (keywords : List String) : ℚ :=
  if cases = [] then 0
  else
    let case_boost := min ((cases.length : ℚ) * 0.05) 0.3
    let avg_score := (cases.map (fun c => c.score)).sum / (cases.length : ℚ)
    let score_boost := avg_score * 0.2
    min ((0.6 : ℚ) + case_boost + score_boost + 0.1) 1

/-- Left-pad a digit string with zeros to the requested width. -/
def padZeros (n : Nat) (s : String) : String :=
  if s.length < n then String.mk (List.replicate (n - s.length) '0') ++ s else s

/-- Fixed-point formatting of a rational to `prec` decimals, the model of the
Python format specifiers `:.2f` / `:.1f` (the exact rational is rounded to
the nearest multiple of `10^-prec`; the values formatted by this program are
not rounding-boundary cases). -/
def fmtFixed (prec : Nat) (q : ℚ) : String :=
  let scaled : ℤ := round (q * (10 : ℚ) ^ prec)
  let n := scaled.natAbs
  (if scaled < 0 then "-" else "") ++
    toString (n / 10 ^ prec) ++ "." ++ padZeros prec (toString (n % 10 ^ prec))

/-- Python `max(iterable, key=key)`: first element with the maximal key wins
(`max` only replaces the current best on a strictly larger key). -/
def pyMaxBy (key : String → Nat) : List String → Option String
  | [] => none
  | x :: xs => some (xs.foldl (fun best y => if key best < key y then y else best) x)

/-- The fold underlying `pyMaxBy` on a nonempty list. -/
def pyFoldMax (key : String → Nat) (x : String) (xs : List String) : String :=
  xs.foldl (fun best y => if key best < key y then y else best) x

/-- Embedding of `max(set(areas), key=areas.count)`.  `order` is the sequence
in which Python enumerates the set `set(areas)` — implementation-defined and
hash-dependent, hence an explicit parameter here. -/
def most_common_area (order : List String) (areas : List String) : Option String :=
  pyMaxBy (fun a => areas.count a) order

/-- A property characterising the lists that a Python `set(elems)` may
enumerate: no duplicates and exactly the members of `elems`. -/
def validSetOrder (order elems : List String) : Prop :=
  order.Nodup ∧ ∀ x, x ∈ order ↔ x ∈ elems

/-- Truthy filter of `.get(...)` results: `None` and `""` are falsy. -/
def truthyOpt (o : Option String) : Option String :=
  match o with
  | some s => if s == "" then none else some s
  | none => none

/-- The `areas` list of `_generate_insights`. -/
def areasOf (cases : List ScoredMatch) : List String :=
  cases.filterMap (fun c => truthyOpt c.metadata.legal_area)

/-- The `successes` list of `_generate_insights`. -/
def successesOf (cases : List ScoredMatch) : List String :=
  cases.filterMap (fun c => truthyOpt c.metadata.success)

/-- The `dates` list of `_generate_insights` (truthy raw start-date cell
values; a NaN cell is truthy and survives this filter). -/
def datesOf (cases : List ScoredMatch) : List PVal :=
  cases.filterMap (fun c =>
    match c.metadata.start_date with
    | some pv => if pvalTruthy pv then some pv else none
    | none => none)

/-- The comprehension `[d[:4] for d in dates if d and len(d) >= 4]`:
evaluating `len(d)` on a NaN cell raises `TypeError`. -/
def collectYears : List PVal → Except String (List String)
  | [] => pure []
  | d :: ds =>
    if pvalTruthy d then do
      let n ← pvalLen d
      let rest ← collectYears ds
      if 4 ≤ n then pure ((pvalStr d).take 4 :: rest) else pure rest
    else collectYears ds

/-- Python `min` over a nonempty string list (lexicographic). -/
def listMinStr (x : String) (xs : List String) : String :=
  xs.foldl (fun best y => if y < best then y else best) x

/-- Python `max` over a nonempty string list (lexicographic). -/
def listMaxStr (x : String) (xs : List String) : String :=
  xs.foldl (fun best y => if best < y then y else best) x

/-- Embedding of `_generate_insights`.  The `set(areas)` enumeration order is
instantiated with first-occurrence order here (for the pipeline the choice is
observable only in the hash-dependent tie-break, analysed separately). -/
def _generate_insights (cases : List ScoredMatch) : Except String String :=
  if cases = [] then pure "No se generaron insights suficientes.\n"
  else do
    let areas := areasOf cases
    let ins1 : List String :=
      match most_common_area (dedupFirst areas) areas with
      | some m => ["- Área legal más relevante: " ++ m]
      | none => []
    let successes := successesOf cases
    let ins2 : List String :=
      if successes = [] then []
      else
        let success_rate := ((successes.count "Exitoso" : ℚ) / (successes.length : ℚ)) * 100
        ["- Tasa de éxito en casos relevantes: " ++ fmtFixed 1 success_rate ++ "%"]
    let years ← collectYears (datesOf cases)
    let ins3 : List String :=
      match years with
      | [] => []
      | y :: ys => ["- Período temporal: " ++ listMinStr y ys ++ "-" ++ listMaxStr y ys]
    pure (String.intercalate "\n" (ins1 ++ ins2 ++ ins3) ++ "\n")

/-- Python `metadata[key]`: raises `KeyError` when the key is absent. -/
def getMeta {α : Type} (key : String) : Option α → Except String α
  | some v => pure v
  | none => Except.error ("KeyError: " ++ key)

/-- One evolution-case line of `_generate_response`. -/
def caseLine (i : Nat) (c : ScoredMatch) : Except String String := do
  let la ← getMeta "legal_area" c.metadata.legal_area
  let sd ← getMeta "start_date" c.metadata.start_date
  let su ← getMeta "success" c.metadata.success
  pure (toString i ++ ". Área: " ++ la ++ ", Inicio: " ++ pvalStr sd ++ ", Éxito: " ++ su ++
    " (Score: " ++ fmtFixed 2 c.score ++ ")\n")

/-- One crisis-period line of `_generate_response`. -/
def crisisLine (i : Nat) (c : ScoredMatch) : Except String String := do
  let ct ← getMeta "crisis_type" c.metadata.crisis_type
  let sv ← getMeta "severity" c.metadata.severity
  let sd ← getMeta "start_date" c.metadata.start_date
  pure (toString i ++ ". Tipo: " ++ ct ++ ", Severidad: " ++ sv ++ ", Inicio: " ++ pvalStr sd ++
    " (Score: " ++ fmtFixed 2 c.score ++ ")\n")

/-- Embedding of `_generate_response`: the fixed no-results message on an
empty match list, otherwise the header, up to 5 evolution-case lines, up to 3
crisis-period lines, and the insights section. -/
def _generate_response (query : String) (relevant_cases : List ScoredMatch) :
    Except String String :=
  if relevant_cases = [] then pure "No se encontraron casos relevantes para la consulta."
  else do
    let header := "Análisis de evolución legal para: \x27" ++ query ++ "\x27\n\n" ++
      "Basado en el análisis del dataset Legal Evolution Dataset con Reality Filter:\n\n"
    let evolution_cases := relevant_cases.filter (fun c => c.mtype == "evolution_case")
    let crisis_cases := relevant_cases.filter (fun c => c.mtype == "crisis_period")
    let evoSection ←
      if evolution_cases.isEmpty then pure ""
      else do
        let lines ← (evolution_cases.take 5).enum.mapM (fun p => caseLine (p.1 + 1) p.2)
        pure ("📊 CASOS DE EVOLUCIÓN LEGAL RELEVANTES:\n" ++ String.join lines ++ "\n")
    let crisisSection ←
      if crisis_cases.isEmpty then pure ""
      else do
        let lines ← (crisis_cases.take 3).enum.mapM (fun p => crisisLine (p.1 + 1) p.2)
        pure ("⚡ PERÍODOS DE CRISIS RELEVANTES:\n" ++ String.join lines ++ "\n")
    let ins ← _generate_insights relevant_cases
    pure (header ++ evoSection ++ crisisSection ++ "🎯 INSIGHTS PRINCIPALES:\n" ++ ins)

/-- Left-to-right non-overlapping scan of `re.findall(r'\b(19|20)\d{2}\b', s)`.
The pattern has one capture group, so `findall` returns the text of that
group — the two-character prefix `"19"` or `"20"` — not the full four-digit
match.  `prevW` records whether the previous character was a word character
(for the leading `\b`). -/
def scanYearsAux : Nat → Bool → List Char → List String
  | 0, _, _ => []
  | _ + 1, _, [] => []
  | fuel + 1, prevW, c1 :: c2 :: d1 :: d2 :: rest =>
    if !prevW && ((c1 == '1' && c2 == '9') || (c1 == '2' && c2 == '0'))
        && d1.isDigit && d2.isDigit
        && (match rest with | [] => true | c :: _ => !isWordChar c) then
      String.mk [c1, c2] :: scanYearsAux fuel true rest
    else scanYearsAux fuel (isWordChar c1) (c2 :: d1 :: d2 :: rest)
  | fuel + 1, _, c1 :: cs => scanYearsAux fuel (isWordChar c1) cs

/-- The scan with its fuel instantiated (every step of the scan consumes at
least one character, so fuel equal to the input length never runs out). -/
def scanYears (prevW : Bool) (s : List Char) : List String :=
  scanYearsAux s.length prevW s

/-- The same scan returning the full four-digit matched tokens — what the
spec describes `temporal_patterns` to be (`re.findall` without the group
behaviour). -/
def scanYearsFullAux : Nat → Bool → List Char → List String
  | 0, _, _ => []
  | _ + 1, _, [] => []
  | fuel + 1, prevW, c1 :: c2 :: d1 :: d2 :: rest =>
    if !prevW && ((c1 == '1' && c2 == '9') || (c1 == '2' && c2 == '0'))
        && d1.isDigit && d2.isDigit
        && (match rest with | [] => true | c :: _ => !isWordChar c) then
      String.mk [c1, c2, d1, d2] :: scanYearsFullAux fuel true rest
    else scanYearsFullAux fuel (isWordChar c1) (c2 :: d1 :: d2 :: rest)
  | fuel + 1, _, c1 :: cs => scanYearsFullAux fuel (isWordChar c1) cs

/-- The full-token scan with its fuel instantiated. -/
def scanYearsFull (prevW : Bool) (s : List Char) : List String :=
  scanYearsFullAux s.length prevW s

/-- Modelled from the spec: the deduplicated full 4-digit year tokens
(beginning with 19 or 20) occurring in a response text — what C7 states the
`temporal_patterns` field to contain. -/
def specYearTokens (response : String) : List String :=
  dedupFirst (scanYearsFull false response.toList)

/-- The analysis dictionary of `_analyze_response`. -/
structure Analysis where
  legal_areas_mentioned : List String
  temporal_patterns : List String
  evolution_mechanisms : List String
  success_indicators : List String
  crisis_indicators : List String
deriving DecidableEq, Repr

/-- The fixed evolution-mechanism keyword list of `_analyze_response`. -/
def mechanisms : List String :=
  ["acumulativa", "artificial", "mixta", "transplante", "endogeno", "hibrido"]

/-- The fixed success-term list of `_analyze_response`. -/
def success_terms : List String := ["exitoso", "parcial", "fracaso", "en_desarrollo"]

/-- Embedding of `_analyze_response`: substring detection of configured legal
domains, mechanisms and success terms over the lowercased response, plus the
(group-text) year scan over the raw response, deduplicated. -/
def _analyze_response (config : Config) (response : String) (query : String) : Analysis :=
  let response_lower := strToLower response
  { legal_areas_mentioned := config.legal_domains.filter (fun a => strContains response_lower a)
    evolution_mechanisms := mechanisms.filter (fun m => strContains response_lower m)
    success_indicators := success_terms.filter (fun t => strContains response_lower t)
    temporal_patterns := dedupFirst (scanYears false response.toList)
    crisis_indicators := [] }

/-- Maximal digit run at the head of a character list. -/
def munchDigits : List Char → (List Char × List Char)
  | [] => ([], [])
  | c :: cs =>
    if c.isDigit then
      let (d, r) := munchDigits cs
      (c :: d, r)
    else ([], c :: cs)

/-- Case-insensitive literal match at the head of a list, returning the
consumed original-case text and the remainder. -/
def icSeg : List Char → List Char → Option (List Char × List Char)
  | [], s => some ([], s)
  | _ :: _, [] => none
  | p :: ps, c :: cs =>
    if p.toLower == c.toLower then (icSeg ps cs).map (fun pr => (c :: pr.1, pr.2))
    else none

/-- Match `kw` (case-insensitive) followed by `\d+ sep \d+` at the head, as
in the patterns `Ley \d+\.\d+`, `Decreto \d+/\d+`, `Fallos \d+:\d+`. -/
def matchKeyNum (kw : List Char) (sep : Char) (s : List Char) :
    Option (List Char × List Char) :=
  match icSeg kw s with
  | none => none
  | some (m1, r1) =>
    let (d1, r2) := munchDigits r1
    if d1.isEmpty then none
    else
      match r2 with
      | c :: r3 =>
        if c == sep then
          let (d2, r4) := munchDigits r3
          if d2.isEmpty then none else some (m1 ++ d1 ++ c :: d2, r4)
        else none
      | [] => none

/-- Fuelled left-to-right non-overlapping `re.findall` scan; every pattern
used here consumes at least one character, so fuel equal to the input length
never runs out. -/
def findAllAux (pat : List Char → Option (List Char × List Char)) :
    Nat → List Char → List String
  | 0, _ => []
  | _, [] => []
  | fuel + 1, c :: cs =>
    match pat (c :: cs) with
    | some (m, r) => String.mk m :: findAllAux pat fuel r
    | none => findAllAux pat fuel cs

/-- All non-overlapping matches of a head-matcher in a string. -/
def findAllPat (pat : List Char → Option (List Char × List Char)) (s : List Char) :
    List String :=
  findAllAux pat s.length s

/-- Embedding of `_extract_sources`: the five `re.IGNORECASE` pattern scans
over the response, concatenated in pattern order, deduplicated. -/
def _extract_sources (response : String) : List String :=
  let s := response.toList
  let sources :=
    findAllPat (matchKeyNum "Ley ".toList '.') s ++
    findAllPat (matchKeyNum "Decreto ".toList '/') s ++
    findAllPat (matchKeyNum "Fallos ".toList ':') s ++
    findAllPat (icSeg "InfoLeg".toList) s ++
    findAllPat (icSeg "SAIJ".toList) s ++
    findAllPat (icSeg "CSJN".toList) s ++
    findAllPat (icSeg "BCRA".toList) s ++
    findAllPat (icSeg "CNV".toList) s
  dedupFirst sources

/-- The successful payload of the query pipeline (the fields of the success
dictionary other than `query` and `timestamp`). -/
structure PipelineOk where
  response : String
  analysis : Analysis
  relevant_case_ids : List (Option String)
  confidence : ℚ
  sources : List String
deriving DecidableEq, Repr

/-- The body of the `try` block of `query_legal_evolution`: keyword
extraction, retrieval, response synthesis, response analysis, confidence and
source extraction; any step's exception propagates to the boundary. -/
def queryPipeline (st : MemoryIndex) (config : Config) (query : String)
    (context_type : Option String) : Except String PipelineOk := do
  let query_keywords := _extract_keywords query
  let relevant_cases := _search_memory st config query_keywords context_type
  let response ← _generate_response query relevant_cases
  let analysis := _analyze_response config response query
  pure { response := response
         analysis := analysis
         relevant_case_ids := relevant_cases.map (fun c => c.id)
         confidence := _calculate_confidence relevant_cases query_keywords
         sources := _extract_sources response }

/-- The dictionary returned by `query_legal_evolution`: either the success
shape or the error shape; absent keys are `none`. -/
structure QueryOutput where
  query : String
  response : Option String
  analysis : Option Analysis
  relevant_cases : Option (List (Option String))
  confidence : Option ℚ
  sources : Option (List String)
  error : Option String
  timestamp : String
deriving DecidableEq, Repr

/-- Embedding of `query_legal_evolution`: run the pipeline under the
`try`/`except`; an exception becomes the `{query, error, timestamp}`
dictionary instead of propagating (`now` stands for `datetime.now()`). -/
def query_legal_evolution (st : MemoryIndex) (config : Config) (query : String)
    (context_type : Option String) (now : String) : QueryOutput :=
  match queryPipeline st config query context_type with
  | .ok r =>
    { query := query, response := some r.response, analysis := some r.analysis,
      relevant_cases := some r.relevant_case_ids, confidence := some r.confidence,
      sources := some r.sources, error := none, timestamp := now }
  | .error e =>
    { query := query, response := none, analysis := none, relevant_cases := none,
      confidence := none, sources := none, error := some e, timestamp := now }

/-! Concrete sample records (the §8 scenario corpus) used by witnesses.
The Batteries rational operations are restored to their definitional
unfolding behaviour (file-locally) so that concrete score and confidence
values can be evaluated by `decide` / `rfl`. -/

set_option allowUnsafeReducibility true

attribute [local semireducible] Rat.add Rat.mul Rat.inv Rat.sub Rat.ofScientific

/-- A concrete evolution case (the spec §8 scenario record). -/
def sampleCase : CaseRecord :=
  { case_id := some "C1", nombre_caso := "fideicomiso financiero",
    area_derecho := "civil", fecha_inicio := .s "1995-01-01", fecha_fin := "2000",
    tipo_seleccion := "acumulativa", origen := "local", exito := "Exitoso",
    presion_ambiental := "alta", actores_principales := "BCRA",
    normativa_primaria := "Ley 24.441", fallos_relevantes := "-",
    supervivencia_anos := "29", mutaciones_identificadas := "2",
    difusion_otras_jurisdicciones := "si", notas := .s "" }

/-- The sample case with a missing (NaN) start date. -/
def caseNan : CaseRecord := { sampleCase with case_id := some "C2", fecha_inicio := .nan }

/-- Index over the one-record sample corpus. -/
def idx1 : MemoryIndex := _build_memory_index [sampleCase] []

/-- Index over the corpus whose single record has a NaN start date. -/
def idxNan : MemoryIndex := _build_memory_index [caseNan] []

/-- The sample case with its required id missing (a NaN `case_id` cell). -/
def caseNoId : CaseRecord := { sampleCase with case_id := none }

/-- The sample case with a start-date string shorter than 4 characters. -/
def case99 : CaseRecord := { sampleCase with fecha_inicio := .s "99" }

/-- All record ids appearing anywhere in the three secondary indexes. -/
def secondaryIds (st : MemoryIndex) : List (Option String) :=
  valsIds st.keywords ++ valsIds st.temporal ++ valsIds st.legal_areas

/-- Key of the by-id store (either partition). -/
def byIdHasKey (st : MemoryIndex) (i : Option String) : Prop :=
  (dictLookup st.evolution_cases i).isSome = true ∨
  (dictLookup st.crisis_periods i).isSome = true

/-- Referential integrity towards the evolution-case partition: every id of
any secondary index is a key of that partition. -/
def RefIntegrityEvo (st : MemoryIndex) : Prop :=
  ∀ i, i ∈ secondaryIds st → (dictLookup st.evolution_cases i).isSome = true

/-- Membership of a value in the list stored at a key of a
`defaultdict(list)` index. -/
def memAt {α β : Type} [DecidableEq α] (d : List (α × List β)) (k : α) (b : β) : Prop :=
  ∃ vs, dictLookup d k = some vs ∧ b ∈ vs

/-- The on-index invariant used while folding `_build_memory_index`:
the id is a key of the evolution partition and appears in the legal-area and
temporal indexes at the expected keys. -/
def IndexedId (i : Option String) (yearKey areaKey : String) (st : MemoryIndex) : Prop :=
  (dictLookup st.evolution_cases i).isSome = true ∧
  memAt st.temporal yearKey i ∧
  memAt st.legal_areas areaKey i

/-- Modelled from the spec: the dominant category with ties broken by the
first occurrence in list order (C8's reading of
`max(set(areas), key=areas.count)`). -/
def specDominantCategory (areas : List String) : Option String :=
  pyMaxBy (fun a => areas.count a) (dedupFirst areas)

/-- A match whose metadata carries the category `administrativo`. -/
def matchAdm : ScoredMatch :=
  { id := some "C1", mtype := "evolution_case", score := 1, content := "",
    metadata := { legal_area := some "administrativo", mtype := "evolution_case" } }

/-- A match whose metadata carries the category `bancario`. -/
def matchBan : ScoredMatch :=
  { id := some "C2", mtype := "evolution_case", score := 1, content := "",
    metadata := { legal_area := some "bancario", mtype := "evolution_case" } }

/-- A match whose metadata carries the category `civil`. -/
def matchCivil : ScoredMatch :=
  { id := some "C3", mtype := "evolution_case", score := 1, content := "",
    metadata := { legal_area := some "civil", mtype := "evolution_case" } }

/-- A second match whose metadata carries the category `civil`. -/
def matchCivil2 : ScoredMatch :=
  { id := some "C4", mtype := "evolution_case", score := 1, content := "",
    metadata := { legal_area := some "civil", mtype := "evolution_case" } }

/-- C1: for every content string and keyword list, `0 ≤ score ≤ 1`; the score
is exactly `0` on an empty keyword list, and otherwise equals the number of
keywords contained in the lowercased content divided by the number of
keywords (each keyword counted once regardless of how often it occurs). -/
theorem c1_relevance_score_bounds (content : String) (keywords : List String) :
    0 ≤ _calculate_relevance_score content keywords ∧
    _calculate_relevance_score content keywords ≤ 1 ∧
    (keywords = [] → _calculate_relevance_score content keywords = 0) ∧
    (keywords ≠ [] →
      _calculate_relevance_score content keywords =
        (keywords.countP (fun k => strContains (strToLower content) k) : ℚ) / (keywords.length : ℚ)) := by
  unfold _calculate_relevance_score
  by_cases h : keywords = []
  · simp [h]
  · have hlen : 0 < keywords.length := List.length_pos.mpr h
    have hlenQ : (0 : ℚ) < (keywords.length : ℚ) := by exact_mod_cast hlen
    have hcount : keywords.countP (fun k => strContains (strToLower content) k) ≤ keywords.length :=
      List.countP_le_length _
    have hcountQ : ((keywords.countP (fun k => strContains (strToLower content) k) : ℚ))
        ≤ (keywords.length : ℚ) := by exact_mod_cast hcount
    refine ⟨?_, ?_, fun hc => absurd hc h, fun _ => by simp [h]⟩
    · simp only [h, if_false]
      positivity
    · simp only [h, if_false]
      rw [div_le_one hlenQ]
      exact hcountQ

/-- Witness for C1 at a concrete input. -/
theorem c1_relevance_score_bounds_witness :
    (["fideicomiso"] : List String) ≠ [] ∧
    _calculate_relevance_score "el fideicomiso financiero" ["fideicomiso"] =
      ((["fideicomiso"] : List String).countP
        (fun k => strContains (strToLower "el fideicomiso financiero") k) : ℚ) /
      (((["fideicomiso"] : List String).length : ℚ)) :=
  ⟨by decide, (c1_relevance_score_bounds "el fideicomiso financiero" ["fideicomiso"]).2.2.2 (by decide)⟩

/-- C3: for score lists in `[0, 1]`, confidence is `0` exactly on the empty
match list and otherwise lies in `[0.6, 1]`; on any non-empty match list it
equals `min(0.6 + min(n*0.05, 0.3) + avg*0.2 + 0.1, 1)`; a single match of
score `1` gives exactly `0.95`. -/
theorem c3_confidence_formula :
    (∀ (keywords : List String) (cases : List ScoredMatch),
      (∀ m ∈ cases, 0 ≤ m.score) →
      ((_calculate_confidence cases keywords = 0 ↔ cases = []) ∧
       (cases ≠ [] → (0.6 : ℚ) ≤ _calculate_confidence cases keywords ∧
          _calculate_confidence cases keywords ≤ 1))) ∧
    (∀ (keywords : List String) (cases : List ScoredMatch), cases ≠ [] →
      _calculate_confidence cases keywords =
        min ((0.6 : ℚ) + min ((cases.length : ℚ) * 0.05) 0.3 +
          ((cases.map (fun c => c.score)).sum / (cases.length : ℚ)) * 0.2 + 0.1) 1) ∧
    (∀ (keywords : List String) (m : ScoredMatch), m.score = 1 →
      _calculate_confidence [m] keywords = 0.95) := by
  refine ⟨?_, ?_, ?_⟩
  · intro keywords cases h
    by_cases hc : cases = []
    · subst hc
      simp [_calculate_confidence]
    · have hlen : (0 : ℚ) < (cases.length : ℚ) := by
        exact_mod_cast List.length_pos.mpr hc
      have hsum : 0 ≤ (cases.map (fun c => c.score)).sum := by
        apply List.sum_nonneg
        intro x hx
        obtain ⟨m, hm, rfl⟩ := List.mem_map.mp hx
        exact h m hm
      have havg : 0 ≤ (cases.map (fun c => c.score)).sum / (cases.length : ℚ) :=
        div_nonneg hsum (le_of_lt hlen)
      have hcb : (0 : ℚ) ≤ min ((cases.length : ℚ) * 0.05) 0.3 := by
        refine le_min (by positivity) (by norm_num)
      have hconf : (0.6 : ℚ) ≤ _calculate_confidence cases keywords ∧
          _calculate_confidence cases keywords ≤ 1 := by
        unfold _calculate_confidence
        rw [if_neg hc]
        refine ⟨le_min (by nlinarith) (by norm_num), min_le_right _ _⟩
      refine ⟨⟨fun h0 => ?_, fun hc2 => absurd hc2 hc⟩, fun _ => hconf⟩
      have := hconf.1
      rw [h0] at this
      norm_num at this
  · intro keywords cases hc
    unfold _calculate_confidence
    rw [if_neg hc]
  · intro keywords m hm
    unfold _calculate_confidence
    rw [if_neg (by simp)]
    simp [hm]
    norm_num

/-- Witness for C3 at a single concrete match of score `1`. -/
theorem c3_confidence_formula_witness :
    _calculate_confidence
      [{ id := some "C1", mtype := "evolution_case", score := 1,
         content := "", metadata := { mtype := "evolution_case" } }] ["fideicomiso"] = 0.95 :=
  c3_confidence_formula.2.2 ["fideicomiso"]
    { id := some "C1", mtype := "evolution_case", score := 1,
      content := "", metadata := { mtype := "evolution_case" } } rfl

/-- C4: the query boundary never propagates an exception — the returned
dictionary always carries the original `query` and the `timestamp`, and the
pipeline raised an exception `e` exactly when the returned dictionary carries
`error = e`. -/
theorem c4_query_error_boundary (st : MemoryIndex) (config : Config) (query : String)
    (context_type : Option String) (now : String) :
    (query_legal_evolution st config query context_type now).query = query ∧
    (query_legal_evolution st config query context_type now).timestamp = now ∧
    (∀ e, queryPipeline st config query context_type = Except.error e ↔
      (query_legal_evolution st config query context_type now).error = some e) := by
  unfold query_legal_evolution
  cases h : queryPipeline st config query context_type with
  | ok r => exact ⟨rfl, rfl, fun e => by simp⟩
  | error e0 => exact ⟨rfl, rfl, fun e => by simp⟩

/-- Witness for C4: a corpus whose single matching record has a NaN start
date makes the insight pipeline raise `TypeError` (from `len(nan)`), and the
returned dictionary carries that error together with the query. -/
theorem c4_query_error_boundary_witness :
    (query_legal_evolution idxNan default_config "fideicomiso" none "T").query =
      "fideicomiso" ∧
    (query_legal_evolution idxNan default_config "fideicomiso" none "T").error =
      some "TypeError: object of type float has no len()" :=
  ⟨(c4_query_error_boundary idxNan default_config "fideicomiso" none "T").1,
   ((c4_query_error_boundary idxNan default_config "fideicomiso" none "T").2.2
      "TypeError: object of type float has no len()").mp (by rfl)⟩

/-- C10: a non-empty `context_type` other than the two partition names opens
no partition: retrieval returns `[]`, and the query result reports an empty
relevant-case list with confidence `0.0` and no error. -/
theorem c10_unknown_context_type (st : MemoryIndex) (config : Config)
    (keywords : List String) (query now s : String)
    (h1 : s ≠ "") (h2 : s ≠ "evolution_cases") (h3 : s ≠ "crisis_periods") :
    _search_memory st config keywords (some s) = [] ∧
    (query_legal_evolution st config query (some s) now).relevant_cases = some [] ∧
    (query_legal_evolution st config query (some s) now).confidence = some 0 ∧
    (query_legal_evolution st config query (some s) now).error = none := by
  have hctx1 : ctxAllows (some s) "evolution_cases" = false := by
    simp [ctxAllows, h1, h2]
  have hctx2 : ctxAllows (some s) "crisis_periods" = false := by
    simp [ctxAllows, h1, h3]
  have hsearch : ∀ kws : List String, _search_memory st config kws (some s) = [] := by
    intro kws
    unfold _search_memory scoredCandidates
    rw [hctx1, hctx2]
    simp [sortByScoreDesc]
  refine ⟨hsearch keywords, ?_⟩
  have hpipe : queryPipeline st config query (some s) =
      Except.ok
        { response := "No se encontraron casos relevantes para la consulta."
          analysis := _analyze_response config
            "No se encontraron casos relevantes para la consulta." query
          relevant_case_ids := []
          confidence := 0
          sources := _extract_sources "No se encontraron casos relevantes para la consulta." } := by
    unfold queryPipeline
    simp only [hsearch]
    simp only [_generate_response, _calculate_confidence, Except.bind, bind,
      List.map_nil, if_pos rfl]
    rfl
  unfold query_legal_evolution
  rw [hpipe]
  exact ⟨rfl, rfl, rfl⟩

/-- Witness for C10 at the filter string `"bogus"`. -/
theorem c10_unknown_context_type_witness :
    _search_memory idx1 default_config ["fideicomiso"] (some "bogus") = [] ∧
    (query_legal_evolution idx1 default_config "fideicomiso" (some "bogus") "T").confidence =
      some 0 :=
  ⟨(c10_unknown_context_type idx1 default_config ["fideicomiso"] "fideicomiso" "T" "bogus"
      (by decide) (by decide) (by decide)).1,
   (c10_unknown_context_type idx1 default_config ["fideicomiso"] "fideicomiso" "T" "bogus"
      (by decide) (by decide) (by decide)).2.2.1⟩

/-- C7 (evidence of the code/spec divergence): the claim says the
temporal-pattern list holds the full 4-digit year tokens of the response, but
`re.findall(r'\b(19|20)\d{2}\b', response)` returns the text of the capture
group, so a response containing `1995` yields `["19"]`, not `["1995"]`. -/
theorem c7_temporal_patterns_are_group_texts :
    (_analyze_response default_config "Inicio: 1995-01-01" "q").temporal_patterns = ["19"] ∧
    specYearTokens "Inicio: 1995-01-01" = ["1995"] ∧
    (_analyze_response default_config "Inicio: 1995-01-01" "q").temporal_patterns ≠
      specYearTokens "Inicio: 1995-01-01" :=
  ⟨by rfl, by rfl, by decide⟩

/-- C8 counterexample: with two tied categories, a legitimate enumeration
order of `set(areas)` makes `max(set(areas), key=areas.count)` return the
category encountered second, not the first-encountered one the claim
promises — the tie-break depends on the unspecified set order. -/
theorem c8_counterexample_set_order :
    validSetOrder ["bancario", "administrativo"] (areasOf [matchAdm, matchBan]) ∧
    most_common_area ["bancario", "administrativo"] (areasOf [matchAdm, matchBan]) =
      some "bancario" ∧
    specDominantCategory (areasOf [matchAdm, matchBan]) = some "administrativo" ∧
    most_common_area ["bancario", "administrativo"] (areasOf [matchAdm, matchBan]) ≠
      specDominantCategory (areasOf [matchAdm, matchBan]) := by
  have ha : areasOf [matchAdm, matchBan] = ["administrativo", "bancario"] := by rfl
  refine ⟨⟨by decide, ?_⟩, by rfl, by rfl, by decide⟩
  intro x
  rw [ha]
  constructor <;> intro h <;> simp only [List.mem_cons, List.not_mem_nil, or_false] at h ⊢ <;>
    tauto

/-- The Python `max(..., key=...)` fold keeps an element of the list and its
key dominates every element's key. -/
theorem pyFoldMax_spec (key : String → Nat) (x : String) (xs : List String) :
    pyFoldMax key x xs ∈ x :: xs ∧ ∀ d ∈ x :: xs, key d ≤ key (pyFoldMax key x xs) := by
  induction xs generalizing x with
  | nil =>
    simp [pyFoldMax]
  | cons y ys ih =>
    have hstep : pyFoldMax key x (y :: ys) =
        pyFoldMax key (if key x < key y then y else x) ys := by
      simp [pyFoldMax]
    obtain ⟨ihmem, ihle⟩ := ih (if key x < key y then y else x)
    have hxy_le : key x ≤ key (if key x < key y then y else x) := by
      by_cases h : key x < key y
      · rw [if_pos h]; exact le_of_lt h
      · rw [if_neg h]
    have hyy_le : key y ≤ key (if key x < key y then y else x) := by
      by_cases h : key x < key y
      · rw [if_pos h]
      · rw [if_neg h]; exact le_of_not_lt h
    constructor
    · rw [hstep]
      by_cases hk : key x < key y
      · rw [if_pos hk] at ihmem ⊢
        rcases List.mem_cons.mp ihmem with h | h
        · rw [h]; simp
        · simp [h]
      · rw [if_neg hk] at ihmem ⊢
        rcases List.mem_cons.mp ihmem with h | h
        · rw [h]; simp
        · simp [h]
    · intro d hd
      rw [hstep]
      rcases List.mem_cons.mp hd with rfl | hd
      · exact le_trans hxy_le (ihle _ (by simp))
      · rcases List.mem_cons.mp hd with rfl | hd
        · exact le_trans hyy_le (ihle _ (by simp))
        · exact ihle d (by simp [hd])

/-- C8 amended: the dominant-category value is always one of the matches'
categories and has maximal occurrence count, for every legitimate set
enumeration order; which tied maximum is returned depends on that unspecified
order (not on first-encounter order), and in the tie-free scenario of two
`civil` matches every legitimate order yields `civil`. -/
theorem c8_dominant_category_amended :
    (∀ (cases : List ScoredMatch) (order : List String),
      validSetOrder order (areasOf cases) → areasOf cases ≠ [] →
      ∃ c, most_common_area order (areasOf cases) = some c ∧ c ∈ areasOf cases ∧
        ∀ d ∈ areasOf cases, (areasOf cases).count d ≤ (areasOf cases).count c) ∧
    (∀ order : List String, validSetOrder order (areasOf [matchCivil, matchCivil2]) →
      most_common_area order (areasOf [matchCivil, matchCivil2]) = some "civil") := by
  constructor
  · intro cases order hvalid hne
    obtain ⟨hnd, hmem⟩ := hvalid
    obtain ⟨a, ha⟩ := List.exists_mem_of_ne_nil _ hne
    cases order with
    | nil => exact absurd ((hmem a).mpr ha) (List.not_mem_nil a)
    | cons o os =>
      obtain ⟨hm, hle⟩ := pyFoldMax_spec (fun a => (areasOf cases).count a) o os
      refine ⟨pyFoldMax (fun a => (areasOf cases).count a) o os, rfl, (hmem _).mp hm, ?_⟩
      intro d hd
      exact hle d ((hmem d).mpr hd)
  · intro order hvalid
    obtain ⟨hnd, hmem⟩ := hvalid
    have hareas : areasOf [matchCivil, matchCivil2] = ["civil", "civil"] := by rfl
    rw [hareas] at hmem ⊢
    have hc : "civil" ∈ order := (hmem "civil").mpr (by simp)
    cases order with
    | nil => simp at hc
    | cons o os =>
      have ho : o = "civil" := by
        have := (hmem o).mp (by simp)
        simpa using this
      cases os with
      | nil => rw [ho]; rfl
      | cons b bs =>
        have hb : b = "civil" := by
          have := (hmem b).mp (by simp)
          simpa using this
        rw [ho, hb] at hnd
        exact absurd hnd (by simp)

/-- Witness for C8 (amended) at the concrete order `["civil"]`. -/
theorem c8_dominant_category_amended_witness :
    most_common_area ["civil"] (areasOf [matchCivil, matchCivil2]) = some "civil" :=
  c8_dominant_category_amended.2 ["civil"]
    ⟨by decide, fun x => by
      have h : areasOf [matchCivil, matchCivil2] = ["civil", "civil"] := by rfl
      rw [h]
      simp⟩

/-- Looking up the key just set yields the new value; other keys are
unchanged. -/
theorem dictLookup_dictSet {α β : Type} [DecidableEq α] (d : List (α × β)) (k k' : α) (v : β) :
    dictLookup (dictSet d k v) k' = if k = k' then some v else dictLookup d k' := by
  induction d with
  | nil => simp [dictSet, dictLookup]
  | cons p rest ih =>
    obtain ⟨k0, v0⟩ := p
    simp only [dictSet]
    by_cases h0 : k0 = k
    · rw [if_pos h0]
      subst h0
      by_cases h1 : k0 = k'
      · subst h1
        simp [dictLookup]
      · simp [dictLookup, h1]
    · rw [if_neg h0]
      by_cases h1 : k0 = k'
      · subst h1
        have hkk : ¬ k = k0 := fun h => h0 h.symm
        simp [dictLookup, hkk]
      · simp [dictLookup, h1, ih]

/-- Self-lookup after a dict assignment. -/
theorem dictLookup_dictSet_self {α β : Type} [DecidableEq α] (d : List (α × β)) (k : α) (v : β) :
    dictLookup (dictSet d k v) k = some v := by
  rw [dictLookup_dictSet]
  simp

/-- A key present before a dict assignment is still present after it. -/
theorem dictLookup_dictSet_isSome {α β : Type} [DecidableEq α] {d : List (α × β)} {k' : α}
    (k : α) (v : β) (h : (dictLookup d k').isSome = true) :
    (dictLookup (dictSet d k v) k').isSome = true := by
  rw [dictLookup_dictSet]
  by_cases hk : k = k' <;> simp [hk, h]

/-- Lookup after a `defaultdict(list)` append: the touched key's list grows
by the value, all other keys are unchanged. -/
theorem dictLookup_dictAppendAt {α β : Type} [DecidableEq α] (d : List (α × List β))
    (k k' : α) (v : β) :
    dictLookup (dictAppendAt d k v) k' =
      if k = k' then
        match dictLookup d k' with
        | some vs => some (vs ++ [v])
        | none => some [v]
      else dictLookup d k' := by
  induction d with
  | nil =>
    by_cases h : k = k' <;> simp [dictAppendAt, dictLookup, h]
  | cons p rest ih =>
    obtain ⟨k0, vs0⟩ := p
    simp only [dictAppendAt]
    by_cases h0 : k0 = k
    · rw [if_pos h0]
      subst h0
      by_cases h1 : k0 = k'
      · subst h1
        simp [dictLookup]
      · simp [dictLookup, h1]
    · rw [if_neg h0]
      by_cases h1 : k0 = k'
      · subst h1
        have hkk : ¬ k = k0 := fun h => h0 h.symm
        simp [dictLookup, hkk]
      · simp [dictLookup, h1, ih]

/-- The appended value is reachable at its key. -/
theorem memAt_dictAppendAt_self {α β : Type} [DecidableEq α] (d : List (α × List β))
    (k : α) (v : β) : memAt (dictAppendAt d k v) k v := by
  unfold memAt
  rw [dictLookup_dictAppendAt]
  rw [if_pos rfl]
  cases h : dictLookup d k with
  | none => exact ⟨[v], rfl, by simp⟩
  | some vs => exact ⟨vs ++ [v], rfl, by simp⟩

/-- A value reachable at a key stays reachable after any append. -/
theorem memAt_dictAppendAt_mono {α β : Type} [DecidableEq α] {d : List (α × List β)}
    {k : α} {b : β} (k1 : α) (v1 : β) (h : memAt d k b) :
    memAt (dictAppendAt d k1 v1) k b := by
  obtain ⟨vs, hvs, hb⟩ := h
  unfold memAt
  rw [dictLookup_dictAppendAt]
  by_cases hk : k1 = k
  · subst hk
    rw [if_pos rfl, hvs]
    exact ⟨vs ++ [v1], rfl, by simp [hb]⟩
  · rw [if_neg hk]
    exact ⟨vs, hvs, hb⟩

/-- Unfolding `valsIds` over a cons cell. -/
theorem valsIds_cons {α β : Type} (p : α × List β) (rest : List (α × List β)) :
    valsIds (p :: rest) = p.2 ++ valsIds rest := by
  simp [valsIds]

/-- Ids after an append: the old ids plus possibly the appended one. -/
theorem mem_valsIds_dictAppendAt {α β : Type} [DecidableEq α] {d : List (α × List β)}
    {k : α} {v b : β} (h : b ∈ valsIds (dictAppendAt d k v)) : b ∈ valsIds d ∨ b = v := by
  induction d with
  | nil =>
    simp [dictAppendAt, valsIds] at h
    tauto
  | cons p rest ih =>
    obtain ⟨k0, vs0⟩ := p
    simp only [dictAppendAt] at h
    by_cases h0 : k0 = k
    · rw [if_pos h0] at h
      rw [valsIds_cons] at h
      simp at h
      rw [valsIds_cons]
      simp
      tauto
    · rw [if_neg h0] at h
      rw [valsIds_cons] at h
      simp at h
      rw [valsIds_cons]
      simp
      rcases h with h | h
      · tauto
      · rcases ih h with h2 | h2 <;> tauto

/-- An id present in a list index stays present after any append. -/
theorem mem_valsIds_dictAppendAt_mono {α β : Type} [DecidableEq α] {d : List (α × List β)}
    {b : β} (k : α) (v : β) (h : b ∈ valsIds d) : b ∈ valsIds (dictAppendAt d k v) := by
  induction d with
  | nil => simp [valsIds] at h
  | cons p rest ih =>
    obtain ⟨k0, vs0⟩ := p
    rw [valsIds_cons] at h
    simp at h
    simp only [dictAppendAt]
    by_cases h0 : k0 = k
    · rw [if_pos h0, valsIds_cons]
      simp
      tauto
    · rw [if_neg h0, valsIds_cons]
      simp
      rcases h with h | h
      · tauto
      · exact Or.inr (ih h)

/-- Ids after the keyword fold: the old ids plus possibly the record's id. -/
theorem mem_valsIds_foldl_appendAt {v b : Option String} (ks : List String)
    (d : List (String × List (Option String)))
    (h : b ∈ valsIds (ks.foldl (fun d (kw : String) => dictAppendAt d (strToLower kw) v) d)) :
    b ∈ valsIds d ∨ b = v := by
  induction ks generalizing d with
  | nil => exact Or.inl h
  | cons kw ks ih =>
    rcases ih _ h with h1 | h1
    · exact mem_valsIds_dictAppendAt h1
    · exact Or.inr h1

/-- The secondary indexes of the empty index hold no ids. -/
theorem refIntegrity_empty : RefIntegrityEvo emptyIndex := by
  intro i hi
  simp [secondaryIds, valsIds, emptyIndex] at hi

/-- The evolution partition after one evolution indexing step. -/
theorem indexCase_evolution_eq (st : MemoryIndex) (r : CaseRecord) :
    (indexCase st r).evolution_cases = dictSet st.evolution_cases r.case_id (caseEntry r) := rfl

/-- The keyword index after one evolution indexing step. -/
theorem indexCase_keywords_eq (st : MemoryIndex) (r : CaseRecord) :
    (indexCase st r).keywords =
      (_extract_keywords (r.nombre_caso ++ " " ++ pvalStr r.notas)).foldl
        (fun d (kw : String) => dictAppendAt d (strToLower kw) r.case_id) st.keywords := rfl

/-- The temporal index after one evolution indexing step. -/
theorem indexCase_temporal_eq (st : MemoryIndex) (r : CaseRecord) :
    (indexCase st r).temporal =
      dictAppendAt st.temporal ((pvalStr r.fecha_inicio).take 4) r.case_id := rfl

/-- The legal-area index after one evolution indexing step. -/
theorem indexCase_legal_areas_eq (st : MemoryIndex) (r : CaseRecord) :
    (indexCase st r).legal_areas =
      dictAppendAt st.legal_areas r.area_derecho r.case_id := rfl

/-- One evolution-case indexing step preserves referential integrity. -/
theorem refIntegrity_indexCase (st : MemoryIndex) (r : CaseRecord)
    (h : RefIntegrityEvo st) : RefIntegrityEvo (indexCase st r) := by
  intro i hi
  have hi' : i ∈ secondaryIds st ∨ i = r.case_id := by
    unfold secondaryIds at hi ⊢
    rw [indexCase_keywords_eq, indexCase_temporal_eq, indexCase_legal_areas_eq] at hi
    simp only [List.mem_append] at hi ⊢
    rcases hi with (h1 | h1) | h1
    · rcases mem_valsIds_foldl_appendAt _ _ h1 with h2 | h2
      · exact Or.inl (Or.inl (Or.inl h2))
      · exact Or.inr h2
    · rcases mem_valsIds_dictAppendAt h1 with h2 | h2
      · exact Or.inl (Or.inl (Or.inr h2))
      · exact Or.inr h2
    · rcases mem_valsIds_dictAppendAt h1 with h2 | h2
      · exact Or.inl (Or.inr h2)
      · exact Or.inr h2
  rw [indexCase_evolution_eq]
  rcases hi' with h1 | rfl
  · exact dictLookup_dictSet_isSome _ _ (h i h1)
  · rw [dictLookup_dictSet_self]
    rfl

/-- A crisis indexing step touches neither the secondary indexes nor the
evolution partition. -/
theorem refIntegrity_indexCrisis (st : MemoryIndex) (c : CrisisRecord)
    (h : RefIntegrityEvo st) : RefIntegrityEvo (indexCrisis st c) := h

/-- Folding the evolution cases preserves referential integrity. -/
theorem refIntegrity_foldCases (cases : List CaseRecord) :
    ∀ st, RefIntegrityEvo st → RefIntegrityEvo (cases.foldl indexCase st) := by
  induction cases with
  | nil => exact fun st h => h
  | cons r rest ih => exact fun st h => ih _ (refIntegrity_indexCase st r h)

/-- Folding the crisis periods preserves referential integrity. -/
theorem refIntegrity_foldCrises (crises : List CrisisRecord) :
    ∀ st, RefIntegrityEvo st → RefIntegrityEvo (crises.foldl indexCrisis st) := by
  induction crises with
  | nil => exact fun st h => h
  | cons c rest ih => exact fun st h => ih _ (refIntegrity_indexCrisis st c h)

/-- C6: after any build, every id appearing in the keyword, temporal or
legal-area index is a key of the by-id store (in fact of its evolution-case
partition — crisis records are never inserted into the secondary indexes). -/
theorem c6_referential_integrity (cases : List CaseRecord) (crises : List CrisisRecord)
    (i : Option String) (h : i ∈ secondaryIds (_build_memory_index cases crises)) :
    byIdHasKey (_build_memory_index cases crises) i :=
  Or.inl
    (refIntegrity_foldCrises crises _ (refIntegrity_foldCases cases _ refIntegrity_empty) i h)

/-- Witness for C6 on the sample corpus at the id `C1` (reachable through the
keyword index). -/
theorem c6_referential_integrity_witness :
    byIdHasKey (_build_memory_index [sampleCase] []) (some "C1") :=
  c6_referential_integrity [sampleCase] [] (some "C1") (by decide)

/-- After one indexing step, the record's id is fully indexed: present in the
evolution partition and reachable at its year and legal-area keys. -/
theorem indexedId_indexCase_self (st : MemoryIndex) (r : CaseRecord) :
    IndexedId r.case_id ((pvalStr r.fecha_inicio).take 4) r.area_derecho (indexCase st r) := by
  refine ⟨?_, ?_, ?_⟩
  · show (dictLookup (dictSet st.evolution_cases r.case_id (caseEntry r)) r.case_id).isSome = true
    rw [dictLookup_dictSet_self]
    rfl
  · show memAt (dictAppendAt _ ((pvalStr r.fecha_inicio).take 4) r.case_id) _ _
    exact memAt_dictAppendAt_self _ _ _
  · show memAt (dictAppendAt _ r.area_derecho r.case_id) _ _
    exact memAt_dictAppendAt_self _ _ _

/-- One indexing step of any other record preserves a fully-indexed id. -/
theorem indexedId_indexCase_mono (st : MemoryIndex) (r' : CaseRecord)
    {i : Option String} {yk ak : String} (h : IndexedId i yk ak st) :
    IndexedId i yk ak (indexCase st r') := by
  obtain ⟨h1, h2, h3⟩ := h
  refine ⟨?_, ?_, ?_⟩
  · exact dictLookup_dictSet_isSome _ _ h1
  · exact memAt_dictAppendAt_mono _ _ h2
  · exact memAt_dictAppendAt_mono _ _ h3

/-- Folding further evolution cases preserves a fully-indexed id. -/
theorem indexedId_foldCases_mono (cases : List CaseRecord) :
    ∀ st (i : Option String) (yk ak : String), IndexedId i yk ak st →
      IndexedId i yk ak (cases.foldl indexCase st) := by
  induction cases with
  | nil => exact fun st i yk ak h => h
  | cons r rest ih =>
    exact fun st i yk ak h => ih _ _ _ _ (indexedId_indexCase_mono st r h)

/-- Folding the crisis records preserves a fully-indexed id. -/
theorem indexedId_foldCrises_mono (crises : List CrisisRecord) :
    ∀ st (i : Option String) (yk ak : String), IndexedId i yk ak st →
      IndexedId i yk ak (crises.foldl indexCrisis st) := by
  induction crises with
  | nil => exact fun st i yk ak h => h
  | cons c rest ih => exact fun st i yk ak h => ih _ _ _ _ h

/-- Folding the evolution cases fully indexes every member record, from any
starting state. -/
theorem indexedId_foldCases (cases : List CaseRecord) :
    ∀ r : CaseRecord, r ∈ cases → ∀ st,
      IndexedId r.case_id ((pvalStr r.fecha_inicio).take 4) r.area_derecho
        (cases.foldl indexCase st) := by
  induction cases with
  | nil => intro r h; cases h
  | cons x xs ih =>
    intro r h st
    rcases List.mem_cons.mp h with rfl | hr
    · exact indexedId_foldCases_mono xs _ _ _ _ (indexedId_indexCase_self st r)
    · exact ih r hr _

/-- Every input evolution record — with or without an id — ends up fully
indexed by the build. -/
theorem indexedId_build (cases : List CaseRecord) (crises : List CrisisRecord)
    (r : CaseRecord) (h : r ∈ cases) :
    IndexedId r.case_id ((pvalStr r.fecha_inicio).take 4) r.area_derecho
      (_build_memory_index cases crises) := by
  unfold _build_memory_index
  exact indexedId_foldCrises_mono crises _ _ _ _ (indexedId_foldCases cases r h emptyIndex)

/-- C5 counterexample: a record whose `case_id` cell is missing is NOT
skipped — the build indexes it under the missing id: the partition holds one
entry (count not decremented), the missing id is a key of `byId`, and it
appears in the legal-area index. -/
theorem c5_counterexample_missing_id_indexed :
    (_build_memory_index [caseNoId] []).evolution_cases.length = 1 ∧
    (dictLookup (_build_memory_index [caseNoId] []).evolution_cases none).isSome = true ∧
    none ∈ valsIds (_build_memory_index [caseNoId] []).legal_areas :=
  ⟨by rfl, by rfl, by decide⟩

/-- C5 amended: the index build performs no missing-id validation at all —
every input record, id-missing ones included, is inserted into the by-id
partition under its (possibly missing) id and into the legal-area index, and
the build returns without error. -/
theorem c5_no_record_skipped (cases : List CaseRecord) (crises : List CrisisRecord)
    (r : CaseRecord) (h : r ∈ cases) :
    (dictLookup (_build_memory_index cases crises).evolution_cases r.case_id).isSome = true ∧
    memAt (_build_memory_index cases crises).legal_areas r.area_derecho r.case_id :=
  ⟨(indexedId_build cases crises r h).1, (indexedId_build cases crises r h).2.2⟩

/-- Witness for C5 (amended) at the id-less record. -/
theorem c5_no_record_skipped_witness :
    (dictLookup (_build_memory_index [caseNoId] []).evolution_cases
      caseNoId.case_id).isSome = true ∧
    memAt (_build_memory_index [caseNoId] []).legal_areas caseNoId.area_derecho
      caseNoId.case_id :=
  c5_no_record_skipped [caseNoId] [] caseNoId (List.mem_singleton.mpr rfl)

/-- C9 counterexample: a start date shorter than 4 characters (or missing,
rendering as `nan`) is NOT skipped — `str(date)[:4]` is inserted as the year
key. -/
theorem c9_counterexample_short_date_inserted :
    dictLookup (_build_memory_index [case99] []).temporal "99" = some [some "C1"] ∧
    dictLookup (_build_memory_index [caseNan] []).temporal "nan" = some [some "C2"] :=
  ⟨by rfl, by rfl⟩

/-- C9 amended: for every record the build inserts the record id into the
year index at key `str(start-date)[:4]` unconditionally and without error —
missing dates yield the key `nan` and short dates their own short string, not
a skipped insertion. -/
theorem c9_year_key_always_inserted (cases : List CaseRecord) (crises : List CrisisRecord)
    (r : CaseRecord) (h : r ∈ cases) :
    memAt (_build_memory_index cases crises).temporal
      ((pvalStr r.fecha_inicio).take 4) r.case_id :=
  (indexedId_build cases crises r h).2.1

/-- Witness for C9 (amended) at the short-date record. -/
theorem c9_year_key_always_inserted_witness :
    memAt (_build_memory_index [case99] []).temporal
      ((pvalStr case99.fecha_inicio).take 4) case99.case_id :=
  c9_year_key_always_inserted [case99] [] case99 (List.mem_singleton.mpr rfl)

/-- Membership under score insertion. -/
theorem mem_insertByScore {x z : ScoredMatch} {l : List ScoredMatch} :
    z ∈ insertByScore x l ↔ z = x ∨ z ∈ l := by
  induction l with
  | nil => simp [insertByScore]
  | cons y ys ih =>
    by_cases h : y.score ≤ x.score
    · simp only [insertByScore, if_pos h]
      simp [List.mem_cons]
    · simp only [insertByScore, if_neg h]
      simp only [List.mem_cons, ih]
      tauto

/-- Inserting into a score-descending list keeps it score-descending. -/
theorem pairwise_insertByScore {x : ScoredMatch} {l : List ScoredMatch}
    (hl : l.Pairwise (fun a b => b.score ≤ a.score)) :
    (insertByScore x l).Pairwise (fun a b => b.score ≤ a.score) := by
  induction l with
  | nil => simp [insertByScore]
  | cons y ys ih =>
    rcases List.pairwise_cons.mp hl with ⟨hy, hys⟩
    by_cases h : y.score ≤ x.score
    · simp only [insertByScore, if_pos h]
      refine List.pairwise_cons.mpr ⟨?_, hl⟩
      intro z hz
      rcases List.mem_cons.mp hz with rfl | hz
      · exact h
      · exact le_trans (hy z hz) h
    · simp only [insertByScore, if_neg h]
      refine List.pairwise_cons.mpr ⟨?_, ih hys⟩
      intro z hz
      rcases mem_insertByScore.mp hz with rfl | hz
      · exact le_of_lt (not_le.mp h)
      · exact hy z hz

/-- The stable sort produces a score-descending list. -/
theorem sortByScoreDesc_pairwise (l : List ScoredMatch) :
    (sortByScoreDesc l).Pairwise (fun a b => b.score ≤ a.score) := by
  induction l with
  | nil => simp [sortByScoreDesc]
  | cons x xs ih =>
    simp only [sortByScoreDesc]
    exact pairwise_insertByScore ih

/-- The stable sort permutes membership only. -/
theorem mem_sortByScoreDesc {z : ScoredMatch} {l : List ScoredMatch} :
    z ∈ sortByScoreDesc l ↔ z ∈ l := by
  induction l with
  | nil => simp [sortByScoreDesc]
  | cons x xs ih =>
    simp only [sortByScoreDesc]
    rw [mem_insertByScore]
    simp [ih]

/-- Filtering one score class through an insertion: the inserted element goes
to the front of its class (it only ever passes elements of strictly greater
score). -/
theorem filter_insertByScore (q : ℚ) (x : ScoredMatch) (l : List ScoredMatch) :
    (insertByScore x l).filter (fun m => m.score == q) =
      if x.score = q then x :: l.filter (fun m => m.score == q)
      else l.filter (fun m => m.score == q) := by
  induction l with
  | nil =>
    by_cases hx : x.score = q <;>
      simp [insertByScore, List.filter_cons, beq_iff_eq, hx]
  | cons y ys ih =>
    by_cases h : y.score ≤ x.score
    · simp only [insertByScore, if_pos h]
      by_cases hx : x.score = q <;> simp [List.filter_cons, hx]
    · simp only [insertByScore, if_neg h]
      by_cases hx : x.score = q
      · rw [if_pos hx]
        have hy : ¬ (y.score = q) := by
          intro hyq
          exact h (le_of_eq (hyq.trans hx.symm))
        rw [List.filter_cons, List.filter_cons]
        simp only [hy, decide_eq_true_eq, if_neg, beq_iff_eq, ite_false]
        rw [ih, if_pos hx]
      · rw [if_neg hx]
        rw [List.filter_cons, List.filter_cons]
        by_cases hy : y.score = q
        · simp only [hy, beq_self_eq_true, if_true, ite_true, beq_iff_eq]
          rw [ih, if_neg hx]
        · simp only [hy, beq_iff_eq, ite_false, if_neg]
          rw [ih, if_neg hx]

/-- Stability of the sort, class by class: each score class of the sorted
list equals that class of the input, in input order. -/
theorem filter_sortByScoreDesc (q : ℚ) (l : List ScoredMatch) :
    (sortByScoreDesc l).filter (fun m => m.score == q) =
      l.filter (fun m => m.score == q) := by
  induction l with
  | nil => rfl
  | cons x xs ih =>
    simp only [sortByScoreDesc]
    rw [filter_insertByScore]
    by_cases hx : x.score = q
    · rw [if_pos hx, ih, List.filter_cons]
      simp [hx]
    · rw [if_neg hx, ih, List.filter_cons]
      simp [hx]

/-- C2: retrieval returns at most `retrieval_top_k` matches, every returned
match scores strictly above zero, the result is score-descending, each score
class of the result is a leading segment of that class of the scan list (the
stable tie-break keeps scan order: evolution partition in insertion order,
then crisis partition), and an empty candidate set yields `[]`, not an
error. -/
theorem c2_search_memory_ranked (st : MemoryIndex) (config : Config)
    (keywords : List String) (context_type : Option String) :
    (_search_memory st config keywords context_type).length ≤ config.retrieval_top_k ∧
    (∀ m ∈ _search_memory st config keywords context_type, 0 < m.score) ∧
    (_search_memory st config keywords context_type).Pairwise
      (fun a b => b.score ≤ a.score) ∧
    (∀ q : ℚ, ∃ t,
      (scoredCandidates st keywords context_type).filter (fun m => m.score == q) =
        (_search_memory st config keywords context_type).filter (fun m => m.score == q) ++ t) ∧
    (scoredCandidates st keywords context_type = [] →
      _search_memory st config keywords context_type = []) := by
  refine ⟨?_, ?_, ?_, ?_, ?_⟩
  · unfold _search_memory
    rw [List.length_take]
    exact min_le_left _ _
  · intro m hm
    unfold _search_memory at hm
    have hm3 : m ∈ scoredCandidates st keywords context_type :=
      mem_sortByScoreDesc.mp (List.take_subset _ _ hm)
    unfold scoredCandidates at hm3
    rcases List.mem_append.mp hm3 with h1 | h1
    · cases hctx : ctxAllows context_type "evolution_cases" with
      | false => simp [hctx] at h1
      | true =>
        simp only [hctx, if_true] at h1
        exact of_decide_eq_true (List.mem_filter.mp h1).2
    · cases hctx : ctxAllows context_type "crisis_periods" with
      | false => simp [hctx] at h1
      | true =>
        simp only [hctx, if_true] at h1
        exact of_decide_eq_true (List.mem_filter.mp h1).2
  · unfold _search_memory
    exact List.Pairwise.sublist (List.take_sublist _ _) (sortByScoreDesc_pairwise _)
  · intro q
    refine ⟨(List.drop config.retrieval_top_k
      (sortByScoreDesc (scoredCandidates st keywords context_type))).filter
        (fun m => m.score == q), ?_⟩
    unfold _search_memory
    rw [← filter_sortByScoreDesc q]
    conv_lhs =>
      rw [← List.take_append_drop config.retrieval_top_k
        (sortByScoreDesc (scoredCandidates st keywords context_type))]
    rw [List.filter_append]
  · intro h
    unfold _search_memory
    rw [h]
    simp [sortByScoreDesc]

/-- Witness for C2 on the sample index. -/
theorem c2_search_memory_ranked_witness :
    (_search_memory idx1 default_config ["fideicomiso"] none).length ≤
      default_config.retrieval_top_k ∧
    (∀ m ∈ _search_memory idx1 default_config ["fideicomiso"] none, 0 < m.score) :=
  ⟨(c2_search_memory_ranked idx1 default_config ["fideicomiso"] none).1,
   (c2_search_memory_ranked idx1 default_config ["fideicomiso"] none).2.1⟩

end LegalEvo
